import Mathlib

/-!
Verification of the side-table / weak-guard subsystem and the dynamic name
resolver of the QtDeclarative source subset (`qmldeclarativedata_p.h`,
`qmltypenamescriptclass.cpp`).

The C++ pointer structures are shallowly embedded as an explicit heap:
hosts (`QObject *`), declarative-data records (`QmlDeclarativeData *`),
guard objects (`QmlGuard<T> *`) and contexts (`QmlContext *`) are named by
natural-number addresses, and each pointer field becomes an `Option` of an
address.  A guard's `prev` field has C++ type `QmlGuard<QObject> **`; it is
embedded as a `GuardSlot`, naming the pointer cell it aims at.  Operations
that in C++ would dereference a null pointer return `none`.
-/

set_option maxHeartbeats 1000000

/-- Address of a `QObject` host object. -/
abbrev HostId := Nat

/-- Address of an allocated `QmlDeclarativeData` record. -/
abbrev DDataId := Nat

/-- Address of a `QmlGuard` object. -/
abbrev GuardId := Nat

/-- Address of a `QmlContext`. -/
abbrev CtxId := Nat

/-- A pointer cell of type `QmlGuard<QObject> *` that a guard's `prev`
back-reference can aim at: either the `guards` head field of a
`QmlDeclarativeData` record, or the `next` field of another guard. -/
inductive GuardSlot where
  | headOf (d : DDataId)
  | nextOf (g : GuardId)
deriving DecidableEq

/-- A pointer cell of type `QmlDeclarativeData *` inside a context object
list, aimed at by `prevContextObject` (C++ type `QmlDeclarativeData **`):
either a context's list head, or the `nextContextObject` field of another
record. -/
inductive CtxSlot where
  | ctxHead (c : CtxId)
  | ddNext (d : DDataId)
deriving DecidableEq

/-- The mutable fields of a `QmlGuard<T>` object (qmlguard_p.h, used by the
`addGuard`/`remGuard` template bodies in qmldeclarativedata_p.h): the watched
object `o`, the forward link `next` and the back-reference `prev`. -/
structure QmlGuardState where
  o : Option HostId
  next : Option GuardId
  prev : Option GuardSlot
deriving DecidableEq

/-- The fields of `QmlDeclarativeData` (qmldeclarativedata_p.h, lines 69-102),
in source order.  Pointers to types outside the modelled core
(`QmlAbstractBinding *`, `quint32 *`, `QmlCompiledData *`, `QmlPropertyCache *`)
are kept as opaque optional addresses; `QScriptValue scriptValue` is a
default-constructed external value and carries no modelled state.  The
`attachedProperties` hash (`QHash<int, QObject *> *`) is an optional
association list. -/
structure QmlDeclarativeData where
  context : Option CtxId
  bindings : Option Nat
  nextContextObject : Option DDataId
  prevContextObject : Option CtxSlot
  bindingBitsSize : Int
  bindingBits : Option Nat
  outerContext : Option CtxId
  lineNumber : Nat
  columnNumber : Nat
  deferredComponent : Option Nat
  deferredIdx : Nat
  attachedProperties : Option (List (Nat × HostId))
  propertyCache : Option Nat
  guards : Option GuardId

/-- The `QmlDeclarativeData(QmlContext *ctxt = 0)` constructor
(qmldeclarativedata_p.h lines 69-73): every field is zero-initialised apart
from `context`, which is set to the argument. -/
def QmlDeclarativeData.init (ctxt : Option CtxId) : QmlDeclarativeData :=
  { context := ctxt
    bindings := none
    nextContextObject := none
    prevContextObject := none
    bindingBitsSize := 0
    bindingBits := none
    outerContext := none
    lineNumber := 0
    columnNumber := 0
    deferredComponent := none
    deferredIdx := 0
    attachedProperties := none
    propertyCache := none
    guards := none }

/-- The engine heap: per-host `QObjectPrivate::declarativeData` back-pointer,
the allocated `QmlDeclarativeData` records, the guard objects, an allocation
counter for fresh records, and each context's `contextObjects` list head. -/
structure EngineState where
  declarativeData : HostId → Option DDataId
  ddataHeap : DDataId → QmlDeclarativeData
  guardHeap : GuardId → QmlGuardState
  nextDData : DDataId
  contextObjects : CtxId → Option DDataId

/-- `QmlDeclarativeData::get(const QObject *, bool create)`
(qmldeclarativedata_p.h lines 104-114): return the host's declarative data if
present; otherwise, when `create` holds, allocate `new QmlDeclarativeData`
(default constructor, so with a null context) and install it as the host's
declarative data; otherwise return null. -/
def QmlDeclarativeData.get (s : EngineState) (object : HostId) (create : Bool) :
    Option DDataId × EngineState :=
  match s.declarativeData object with
  | some d => (some d, s)
  | none =>
      if create then
        let d := s.nextDData
        (some d,
          { s with
            declarativeData := fun h => if h = object then some d else s.declarativeData h
            ddataHeap := fun x => if x = d then QmlDeclarativeData.init none else s.ddataHeap x
            nextDData := d + 1 })
      else (none, s)

/-- Claim C3: `get(H, false)` returns absent and performs no allocation (the
state is unchanged) while the host has no declarative data; after a call
`get(H, true)` that created the record, every subsequent `get(H, false)` and
`get(H, true)` returns that same record and leaves the state unchanged, so
creation is idempotent and at most one side table exists per host. -/
theorem get_absent_then_idempotent (s : EngineState) (H : HostId) :
    (s.declarativeData H = none →
      QmlDeclarativeData.get s H false = (none, s)) ∧
    (∀ d s2, QmlDeclarativeData.get s H true = (some d, s2) →
      QmlDeclarativeData.get s2 H false = (some d, s2) ∧
      QmlDeclarativeData.get s2 H true = (some d, s2)) := by
  constructor
  · intro h
    simp [QmlDeclarativeData.get, h]
  · intro d s2 h
    unfold QmlDeclarativeData.get at h
    rcases hd : s.declarativeData H with _ | d0
    · rw [hd] at h
      simp only [if_pos rfl] at h
      obtain ⟨hd1, hs2⟩ := Prod.mk.injEq .. ▸ h
      subst hs2
      have hdd : d = s.nextDData := by
        cases hd1; rfl
      subst hdd
      constructor <;>
        simp [QmlDeclarativeData.get]
    · rw [hd] at h
      obtain ⟨hd1, hs2⟩ := Prod.mk.injEq .. ▸ h
      subst hs2
      have hdd : d = d0 := by cases hd1; rfl
      subst hdd
      constructor <;> simp [QmlDeclarativeData.get, hd]

/-- A concrete empty heap used by witnesses. -/
def emptyState : EngineState :=
  { declarativeData := fun _ => none
    ddataHeap := fun _ => QmlDeclarativeData.init none
    guardHeap := fun _ => { o := none, next := none, prev := none }
    nextDData := 0
    contextObjects := fun _ => none }

theorem get_absent_then_idempotent_witness :
    QmlDeclarativeData.get emptyState 3 false = (none, emptyState) ∧
    QmlDeclarativeData.get (QmlDeclarativeData.get emptyState 3 true).2 3 false =
      (some 0, (QmlDeclarativeData.get emptyState 3 true).2) := by
  refine ⟨(get_absent_then_idempotent emptyState 3).1 rfl, ?_⟩
  exact ((get_absent_then_idempotent emptyState 3).2 0
    (QmlDeclarativeData.get emptyState 3 true).2 rfl).1

/-- Claim C4 counterexample state: one host (address 0) with no declarative
data yet, and every context object list empty. -/
def stateC4 : EngineState := emptyState

/-- Claim C4 counterexample: on a host with no side table, `get(H, true)`
allocates the record through the default constructor — its `context` is null,
its context-list links (`nextContextObject`, `prevContextObject`) are null,
and no context's `contextObjects` list head changes — so, contrary to the
claim, the new side table is linked into no context object list, whatever
the host's declared owning context. -/
theorem get_create_counterexample :
    (QmlDeclarativeData.get stateC4 0 true).1 = some 0 ∧
    ((QmlDeclarativeData.get stateC4 0 true).2.ddataHeap 0).context = none ∧
    ((QmlDeclarativeData.get stateC4 0 true).2.ddataHeap 0).nextContextObject = none ∧
    ((QmlDeclarativeData.get stateC4 0 true).2.ddataHeap 0).prevContextObject = none ∧
    (QmlDeclarativeData.get stateC4 0 true).2.contextObjects = stateC4.contextObjects :=
  ⟨rfl, rfl, rfl, rfl, rfl⟩

/-- Claim C4 (amended): for a host with no side table, `get(H, true)`
allocates a fresh `QmlDeclarativeData` via the default constructor — with
absent owning context and null context-list links — stores it as the host's
declarative data and returns it; it does not link the record into any
context's ContextObjectList (context association and linking are performed
elsewhere, not by `get`). -/
theorem get_create_no_context_link (s : EngineState) (H : HostId)
    (h : s.declarativeData H = none) :
    ∃ d s2, QmlDeclarativeData.get s H true = (some d, s2) ∧
      (s2.ddataHeap d).context = none ∧
      (s2.ddataHeap d).nextContextObject = none ∧
      (s2.ddataHeap d).prevContextObject = none ∧
      s2.contextObjects = s.contextObjects ∧
      s2.declarativeData H = some d := by
  refine ⟨s.nextDData,
    { s with
      declarativeData := fun h2 => if h2 = H then some s.nextDData else s.declarativeData h2
      ddataHeap := fun x => if x = s.nextDData then QmlDeclarativeData.init none
                            else s.ddataHeap x
      nextDData := s.nextDData + 1 }, ?_, ?_, ?_, ?_, ?_, ?_⟩ <;>
    simp [QmlDeclarativeData.get, h, QmlDeclarativeData.init]

theorem get_create_no_context_link_witness :
    ∃ d s2, QmlDeclarativeData.get emptyState 5 true = (some d, s2) ∧
      (s2.ddataHeap d).context = none ∧
      (s2.ddataHeap d).nextContextObject = none ∧
      (s2.ddataHeap d).prevContextObject = none ∧
      s2.contextObjects = emptyState.contextObjects ∧
      s2.declarativeData 5 = some d :=
  get_create_no_context_link emptyState 5 rfl

/-- Write the `o` field of a guard object. -/
def EngineState.setGuardO (s : EngineState) (g : GuardId) (v : Option HostId) : EngineState :=
  { s with guardHeap := fun x => if x = g then { s.guardHeap g with o := v } else s.guardHeap x }

/-- Write the `next` field of a guard object. -/
def EngineState.setGuardNext (s : EngineState) (g : GuardId) (v : Option GuardId) : EngineState :=
  { s with guardHeap := fun x => if x = g then { s.guardHeap g with next := v } else s.guardHeap x }

/-- Write the `prev` field of a guard object. -/
def EngineState.setGuardPrev (s : EngineState) (g : GuardId) (v : Option GuardSlot) : EngineState :=
  { s with guardHeap := fun x => if x = g then { s.guardHeap g with prev := v } else s.guardHeap x }

/-- Write the `guards` head field of a `QmlDeclarativeData` record. -/
def EngineState.setGuards (s : EngineState) (d : DDataId) (v : Option GuardId) : EngineState :=
  { s with ddataHeap := fun x => if x = d then { s.ddataHeap d with guards := v } else s.ddataHeap x }

/-- Write the `attachedProperties` field of a `QmlDeclarativeData` record. -/
def EngineState.setAttached (s : EngineState) (d : DDataId)
    (v : Option (List (Nat × HostId))) : EngineState :=
  { s with ddataHeap := fun x => if x = d then { s.ddataHeap d with attachedProperties := v }
                                 else s.ddataHeap x }

/-- Dereference-and-assign through a `QmlGuard<QObject> **` cell
(the C++ statement `*prev = next`). -/
def EngineState.writeSlot (s : EngineState) (slot : GuardSlot) (v : Option GuardId) : EngineState :=
  match slot with
  | .headOf d => s.setGuards d v
  | .nextOf g => s.setGuardNext g v

@[simp] theorem guardHeap_setGuardO (s : EngineState) (g : GuardId) (v : Option HostId)
    (x : GuardId) :
    (s.setGuardO g v).guardHeap x =
      if x = g then { s.guardHeap g with o := v } else s.guardHeap x := rfl

@[simp] theorem guardHeap_setGuardNext (s : EngineState) (g : GuardId) (v : Option GuardId)
    (x : GuardId) :
    (s.setGuardNext g v).guardHeap x =
      if x = g then { s.guardHeap g with next := v } else s.guardHeap x := rfl

@[simp] theorem guardHeap_setGuardPrev (s : EngineState) (g : GuardId) (v : Option GuardSlot)
    (x : GuardId) :
    (s.setGuardPrev g v).guardHeap x =
      if x = g then { s.guardHeap g with prev := v } else s.guardHeap x := rfl

@[simp] theorem ddataHeap_setGuards (s : EngineState) (d : DDataId) (v : Option GuardId)
    (x : DDataId) :
    (s.setGuards d v).ddataHeap x =
      if x = d then { s.ddataHeap d with guards := v } else s.ddataHeap x := rfl

@[simp] theorem ddataHeap_setAttached (s : EngineState) (d : DDataId)
    (v : Option (List (Nat × HostId))) (x : DDataId) :
    (s.setAttached d v).ddataHeap x =
      if x = d then { s.ddataHeap d with attachedProperties := v } else s.ddataHeap x := rfl

@[simp] theorem ddataHeap_setGuardO (s : EngineState) (g : GuardId) (v : Option HostId) :
    (s.setGuardO g v).ddataHeap = s.ddataHeap := rfl

@[simp] theorem ddataHeap_setGuardNext (s : EngineState) (g : GuardId) (v : Option GuardId) :
    (s.setGuardNext g v).ddataHeap = s.ddataHeap := rfl

@[simp] theorem ddataHeap_setGuardPrev (s : EngineState) (g : GuardId) (v : Option GuardSlot) :
    (s.setGuardPrev g v).ddataHeap = s.ddataHeap := rfl

@[simp] theorem guardHeap_setGuards (s : EngineState) (d : DDataId) (v : Option GuardId) :
    (s.setGuards d v).guardHeap = s.guardHeap := rfl

@[simp] theorem guardHeap_setAttached (s : EngineState) (d : DDataId)
    (v : Option (List (Nat × HostId))) :
    (s.setAttached d v).guardHeap = s.guardHeap := rfl

@[simp] theorem declarativeData_setGuardO (s : EngineState) (g : GuardId) (v : Option HostId) :
    (s.setGuardO g v).declarativeData = s.declarativeData := rfl

@[simp] theorem declarativeData_setGuardNext (s : EngineState) (g : GuardId)
    (v : Option GuardId) :
    (s.setGuardNext g v).declarativeData = s.declarativeData := rfl

@[simp] theorem declarativeData_setGuardPrev (s : EngineState) (g : GuardId)
    (v : Option GuardSlot) :
    (s.setGuardPrev g v).declarativeData = s.declarativeData := rfl

@[simp] theorem declarativeData_setGuards (s : EngineState) (d : DDataId) (v : Option GuardId) :
    (s.setGuards d v).declarativeData = s.declarativeData := rfl

@[simp] theorem declarativeData_setAttached (s : EngineState) (d : DDataId)
    (v : Option (List (Nat × HostId))) :
    (s.setAttached d v).declarativeData = s.declarativeData := rfl

/-- `QmlGuard<T>::addGuard()` (qmldeclarativedata_p.h lines 117-125), run on
the guard object `g`: fetch (creating on demand) the declarative data of the
watched object `o`, set `next` to the current list head, point the old head's
`prev` at `g`'s `next` cell when there is one, install `g` as the head, and
point `g`'s `prev` at the head cell.  A null watched object makes the C++
code dereference null inside `QObjectPrivate::get`, embedded as `none`. -/
def QmlGuard.addGuard (s : EngineState) (g : GuardId) : Option EngineState :=
  match (s.guardHeap g).o with
  | none => none
  | some obj =>
    match QmlDeclarativeData.get s obj true with
    | (none, _) => none
    | (some d, s1) =>
      let oldHead := (s1.ddataHeap d).guards
      let s2 := s1.setGuardNext g oldHead
      let s3 := match oldHead with
                | some n => s2.setGuardPrev n (some (GuardSlot.nextOf g))
                | none => s2
      let s4 := s3.setGuards d (some g)
      some (s4.setGuardPrev g (some (GuardSlot.headOf d)))

/-- `QmlGuard<T>::remGuard()` (qmldeclarativedata_p.h lines 127-134), run on
the guard object `g`: point the successor's `prev` (when there is one) at
`g`'s own `prev` cell, store `next` through the `prev` cell (`*prev = next`),
then null `g`'s `next` and `prev`.  When `prev` is already null the store
`*prev = next` dereferences a null pointer, embedded as `none`. -/
def QmlGuard.remGuard (s : EngineState) (g : GuardId) : Option EngineState :=
  let gs := s.guardHeap g
  let s1 := match gs.next with
            | some n => s.setGuardPrev n gs.prev
            | none => s
  match gs.prev with
  | none => none
  | some slot =>
      let s2 := s1.writeSlot slot gs.next
      some ((s2.setGuardNext g none).setGuardPrev g none)

/-- Modelled from the spec: `QmlDeclarativeData::destroyed(QObject *)` is only
declared in this source subset (qmldeclarativedata_p.h line 75); its body is
not present.  Spec section 4.1 prescribes that teardown walks the GuardList
front to back, setting each guard's target to absent and unlinking it,
capturing the next pointer before clearing the node.  `fuel` bounds the walk;
any value at least the list length covers the whole list. -/
def clearGuardsLoop : EngineState → Nat → Option GuardId → EngineState
  | s, 0, _ => s
  | s, _ + 1, none => s
  | s, fuel + 1, some g =>
      let nxt := (s.guardHeap g).next
      clearGuardsLoop (((s.setGuardO g none).setGuardNext g none).setGuardPrev g none) fuel nxt

/-- Modelled from the spec: the teardown entry point `onHostDestroyed(host)`
(spec section 4.1), i.e. `QmlDeclarativeData::destroyed`, whose body is not in
this source subset: if the host has no side table this is a no-op; otherwise
every guard in the host's GuardList is invalidated and unlinked and the side
table is freed (the host's declarative-data back-pointer is cleared).  Binding
detach and context-list unlink act on state outside the guard subsystem
modelled here and do not touch guard objects. -/
def QmlDeclarativeData.destroyed (s : EngineState) (object : HostId) (fuel : Nat) :
    EngineState :=
  match s.declarativeData object with
  | none => s
  | some d =>
      let s1 := clearGuardsLoop s fuel ((s.ddataHeap d).guards)
      { s1 with declarativeData := fun h => if h = object then none else s1.declarativeData h }

/-- `guardSeg s slot head l`: starting from the pointer cell `slot`, whose
current content is `head`, the guard chain is exactly the list `l`, with every
back-reference correct: each listed guard's `prev` aims at the cell that
points to it, and the chain ends in null.  This is the intrusive-list shape
invariant of the `guards` list. -/
def guardSeg (s : EngineState) : GuardSlot → Option GuardId → List GuardId → Prop
  | _, head, [] => head = none
  | slot, head, g :: rest =>
      head = some g ∧ (s.guardHeap g).prev = some slot ∧
      guardSeg s (GuardSlot.nextOf g) ((s.guardHeap g).next) rest

instance guardSegDecidable (s : EngineState) :
    ∀ (slot : GuardSlot) (head : Option GuardId) (l : List GuardId),
      Decidable (guardSeg s slot head l)
  | _, head, [] => by unfold guardSeg; infer_instance
  | slot, head, g :: rest => by
      unfold guardSeg
      have := guardSegDecidable s (GuardSlot.nextOf g) ((s.guardHeap g).next) rest
      infer_instance

/-- The guard list of the declarative-data record `d` is exactly `l`. -/
def hostGuards (s : EngineState) (d : DDataId) (l : List GuardId) : Prop :=
  guardSeg s (GuardSlot.headOf d) ((s.ddataHeap d).guards) l

instance (s : EngineState) (d : DDataId) (l : List GuardId) :
    Decidable (hostGuards s d l) := guardSegDecidable s _ _ _

/-- The cell that points at the element following a run `l` of guards that
started at the cell `slot`. -/
def predSlot (slot : GuardSlot) : List GuardId → GuardSlot
  | [] => slot
  | p :: l => predSlot (GuardSlot.nextOf p) l

theorem predSlot_mem (slot : GuardSlot) (l : List GuardId) (hne : l ≠ []) :
    ∃ q ∈ l, predSlot slot l = GuardSlot.nextOf q := by
  induction l generalizing slot with
  | nil => exact absurd rfl hne
  | cons p l ih =>
      cases l with
      | nil => exact ⟨p, List.mem_singleton.mpr rfl, rfl⟩
      | cons q l2 =>
          obtain ⟨r, hr, heq⟩ := ih (GuardSlot.nextOf p) (by simp)
          exact ⟨r, List.mem_cons_of_mem p hr, heq⟩

/-- A guard segment only reads the `prev` and `next` fields of its members;
two states agreeing there carry the same segments. -/
theorem guardSeg_congr {s s2 : EngineState} {l : List GuardId}
    (hagree : ∀ g ∈ l, (s2.guardHeap g).prev = (s.guardHeap g).prev ∧
                       (s2.guardHeap g).next = (s.guardHeap g).next) :
    ∀ {slot : GuardSlot} {head : Option GuardId},
      guardSeg s slot head l → guardSeg s2 slot head l := by
  induction l with
  | nil => intro slot head h; exact h
  | cons g rest ih =>
      intro slot head h
      obtain ⟨h1, h2, h3⟩ := h
      obtain ⟨hp, hn⟩ := hagree g (List.mem_cons_self g rest)
      refine ⟨h1, hp.trans h2, hn ▸ ?_⟩
      exact ih (fun x hx => hagree x (List.mem_cons_of_mem g hx)) h3

/-- In a segment `l1 ++ g :: l2`, the guard `g`'s back-reference aims at the
cell following the run `l1`, and the tail after `g` is the segment `l2`. -/
theorem guardSeg_middle {s : EngineState} {g : GuardId} {l2 : List GuardId} :
    ∀ (l1 : List GuardId) (slot : GuardSlot) (head : Option GuardId),
      guardSeg s slot head (l1 ++ g :: l2) →
      (s.guardHeap g).prev = some (predSlot slot l1) ∧
      guardSeg s (GuardSlot.nextOf g) ((s.guardHeap g).next) l2 := by
  intro l1
  induction l1 with
  | nil =>
      intro slot head h
      obtain ⟨_, h2, h3⟩ := h
      exact ⟨h2, h3⟩
  | cons p l1 ih =>
      intro slot head h
      obtain ⟨_, _, h3⟩ := h
      exact ih (GuardSlot.nextOf p) ((s.guardHeap p).next) h3

theorem remGuard_some {s : EngineState} {g : GuardId} {ps : GuardSlot}
    (hprev : (s.guardHeap g).prev = some ps) :
    ∃ s2, QmlGuard.remGuard s g = some s2 := by
  unfold QmlGuard.remGuard
  cases hnext : (s.guardHeap g).next <;> simp [hprev, hnext]

/-- What every cell of the heap holds after a successful `remGuard g`:
the old successor's `prev` is redirected to `g`'s back-reference target `ps`,
the cell `ps` aims at now holds `g`'s old `next`, `g` itself is fully
unlinked, and nothing else moves. -/
theorem remGuard_char {s s2 : EngineState} {g : GuardId} {ps : GuardSlot}
    (hprev : (s.guardHeap g).prev = some ps)
    (hrem : QmlGuard.remGuard s g = some s2) :
    (∀ x, x ≠ g → (s2.guardHeap x).prev =
        (if (s.guardHeap g).next = some x then some ps else (s.guardHeap x).prev)) ∧
    (∀ x, x ≠ g → (s2.guardHeap x).next =
        (if ps = GuardSlot.nextOf x then (s.guardHeap g).next else (s.guardHeap x).next)) ∧
    (s2.guardHeap g).next = none ∧ (s2.guardHeap g).prev = none ∧
    (∀ dd, (s2.ddataHeap dd).guards =
        (if ps = GuardSlot.headOf dd then (s.guardHeap g).next else (s.ddataHeap dd).guards)) ∧
    s2.declarativeData = s.declarativeData := by
  cases hnext : (s.guardHeap g).next with
  | none =>
      simp only [QmlGuard.remGuard, hnext, hprev] at hrem
      cases ps with
      | headOf dd0 =>
          simp only [EngineState.writeSlot, Option.some.injEq] at hrem
          subst hrem
          refine ⟨?_, ?_, ?_, ?_, ?_, rfl⟩
          · intro x hx
            simp only [guardHeap_setGuardPrev, guardHeap_setGuardNext, guardHeap_setGuards,
              hnext]
            split_ifs <;> simp_all
          · intro x hx
            simp only [guardHeap_setGuardPrev, guardHeap_setGuardNext, guardHeap_setGuards,
              hnext]
            split_ifs <;> simp_all
          · simp only [guardHeap_setGuardPrev, guardHeap_setGuardNext, guardHeap_setGuards]
            split_ifs <;> simp_all
          · simp only [guardHeap_setGuardPrev, guardHeap_setGuardNext, guardHeap_setGuards]
            split_ifs <;> simp_all
          · intro dd
            simp only [ddataHeap_setGuardPrev, ddataHeap_setGuardNext, ddataHeap_setGuards]
            split_ifs <;> simp_all
      | nextOf gg =>
          simp only [EngineState.writeSlot, Option.some.injEq] at hrem
          subst hrem
          refine ⟨?_, ?_, ?_, ?_, ?_, rfl⟩
          · intro x hx
            simp only [guardHeap_setGuardPrev, guardHeap_setGuardNext, hnext]
            split_ifs <;> simp_all
          · intro x hx
            simp only [guardHeap_setGuardPrev, guardHeap_setGuardNext, hnext]
            split_ifs <;> simp_all
          · simp only [guardHeap_setGuardPrev, guardHeap_setGuardNext]
            split_ifs <;> simp_all
          · simp only [guardHeap_setGuardPrev, guardHeap_setGuardNext]
            split_ifs <;> simp_all
          · intro dd
            simp only [ddataHeap_setGuardPrev, ddataHeap_setGuardNext]
            split_ifs <;> simp_all
  | some n =>
      simp only [QmlGuard.remGuard, hnext, hprev] at hrem
      cases ps with
      | headOf dd0 =>
          simp only [EngineState.writeSlot, Option.some.injEq] at hrem
          subst hrem
          refine ⟨?_, ?_, ?_, ?_, ?_, rfl⟩
          · intro x hx
            simp only [guardHeap_setGuardPrev, guardHeap_setGuardNext, guardHeap_setGuards,
              hnext]
            split_ifs <;> simp_all
          · intro x hx
            simp only [guardHeap_setGuardPrev, guardHeap_setGuardNext, guardHeap_setGuards,
              hnext]
            split_ifs <;> simp_all
          · simp only [guardHeap_setGuardPrev, guardHeap_setGuardNext, guardHeap_setGuards]
            split_ifs <;> simp_all
          · simp only [guardHeap_setGuardPrev, guardHeap_setGuardNext, guardHeap_setGuards]
            split_ifs <;> simp_all
          · intro dd
            simp only [ddataHeap_setGuardPrev, ddataHeap_setGuardNext, ddataHeap_setGuards]
            split_ifs <;> simp_all
      | nextOf gg =>
          simp only [EngineState.writeSlot, Option.some.injEq] at hrem
          subst hrem
          refine ⟨?_, ?_, ?_, ?_, ?_, rfl⟩
          · intro x hx
            simp only [guardHeap_setGuardPrev, guardHeap_setGuardNext, hnext]
            split_ifs <;> simp_all
          · intro x hx
            simp only [guardHeap_setGuardPrev, guardHeap_setGuardNext, hnext]
            split_ifs <;> simp_all
          · simp only [guardHeap_setGuardPrev, guardHeap_setGuardNext]
            split_ifs <;> simp_all
          · simp only [guardHeap_setGuardPrev, guardHeap_setGuardNext]
            split_ifs <;> simp_all
          · intro dd
            simp only [ddataHeap_setGuardPrev, ddataHeap_setGuardNext]
            split_ifs <;> simp_all

/-- A guard segment determines the value in its starting cell. -/
theorem guardSeg_head {s : EngineState} {slot : GuardSlot} {head : Option GuardId} :
    ∀ {l : List GuardId}, guardSeg s slot head l →
      head = (match l with | [] => none | a :: _ => some a) := by
  intro l h
  cases l with
  | nil => exact h
  | cons a rest => exact h.1

/-- The content of the starting cell after removing `g`: when the run `l1`
before `g` is empty the cell now holds `g`'s old successor, otherwise it is
untouched. -/
def removedHead (gnext head : Option GuardId) : List GuardId → Option GuardId
  | [] => gnext
  | _ :: _ => head

/-- Removing `g` by `remGuard` from a well-formed segment `l1 ++ g :: l2`
leaves the well-formed segment `l1 ++ l2`; the head cell content changes
exactly when `g` was the first element.  `slot` must be a cell outside the
segment (the list owner's head cell, or the cell of an earlier node). -/
theorem guardSeg_remove {s s2 : EngineState} {g : GuardId} {l2 : List GuardId}
    (hrem : QmlGuard.remGuard s g = some s2) :
    ∀ (l1 : List GuardId) (slot : GuardSlot) (head : Option GuardId),
      guardSeg s slot head (l1 ++ g :: l2) →
      (l1 ++ g :: l2).Nodup →
      (∀ x ∈ l1 ++ g :: l2, slot ≠ GuardSlot.nextOf x) →
      guardSeg s2 slot (removedHead ((s.guardHeap g).next) head l1) (l1 ++ l2) := by
  intro l1
  induction l1 with
  | nil =>
      intro slot head hseg hnd hext
      simp only [List.nil_append] at hseg hnd hext ⊢
      obtain ⟨h1, h2, h3⟩ := hseg
      obtain ⟨hchar1, hchar2, _, _, _, _⟩ := remGuard_char h2 hrem
      have hgnl2 : g ∉ l2 := (List.nodup_cons.mp hnd).1
      have hndl2 : l2.Nodup := (List.nodup_cons.mp hnd).2
      cases l2 with
      | nil => exact h3
      | cons n rest =>
          obtain ⟨h31, h32, h33⟩ := h3
          have hng : n ≠ g := by
            intro hc
            exact hgnl2 (by rw [← hc]; exact List.mem_cons_self n rest)
          have hnrest : n ∉ rest := (List.nodup_cons.mp hndl2).1
          refine ⟨h31, ?_, ?_⟩
          · rw [hchar1 n hng, if_pos h31]
          · have hnn : (s2.guardHeap n).next = (s.guardHeap n).next := by
              rw [hchar2 n hng, if_neg]
              exact hext n (List.mem_cons_of_mem g (List.mem_cons_self n rest))
            rw [hnn]
            refine guardSeg_congr ?_ h33
            intro x hx
            have hxg : x ≠ g := by
              intro hc
              exact hgnl2 (by rw [← hc]; exact List.mem_cons_of_mem n hx)
            have hxn : x ≠ n := by
              intro hc
              exact hnrest (by rw [← hc]; exact hx)
            constructor
            · rw [hchar1 x hxg, h31, if_neg]
              simp [Ne.symm hxn]
            · rw [hchar2 x hxg, if_neg]
              exact hext x (List.mem_cons_of_mem g (List.mem_cons_of_mem n hx))
  | cons p l1 ih =>
      intro slot head hseg hnd hext
      obtain ⟨h1, h2, h3⟩ := hseg
      have hmid := guardSeg_middle l1 (GuardSlot.nextOf p) ((s.guardHeap p).next) h3
      obtain ⟨hchar1, hchar2, _, _, _, _⟩ := remGuard_char hmid.1 hrem
      have hnp : p ∉ l1 ++ g :: l2 := (List.nodup_cons.mp hnd).1
      have hnd2 : (l1 ++ g :: l2).Nodup := (List.nodup_cons.mp hnd).2
      have hpg : p ≠ g := by
        intro hc
        refine hnp ?_
        rw [hc]
        exact List.mem_append_right l1 (List.mem_cons_self g l2)
      have hext2 : ∀ x ∈ l1 ++ g :: l2, GuardSlot.nextOf p ≠ GuardSlot.nextOf x := by
        intro x hx hc
        have hpx : p = x := by injection hc
        exact hnp (by rw [hpx]; exact hx)
      have hih := ih (GuardSlot.nextOf p) ((s.guardHeap p).next) h3 hnd2 hext2
      refine ⟨h1, ?_, ?_⟩
      · rw [hchar1 p hpg, if_neg, h2]
        rw [guardSeg_head hmid.2]
        cases l2 with
        | nil => simp
        | cons n rest =>
            intro hc
            have hnp2 : n = p := by injection hc
            refine hnp ?_
            rw [← hnp2]
            exact List.mem_append_right l1 (List.mem_cons_of_mem g (List.mem_cons_self n rest))
      · have hpn : (s2.guardHeap p).next =
            removedHead ((s.guardHeap g).next) ((s.guardHeap p).next) l1 := by
          rw [hchar2 p hpg]
          cases l1 with
          | nil => simp [predSlot, removedHead]
          | cons q l1b =>
              obtain ⟨r, hrmem, hreq⟩ :=
                predSlot_mem (GuardSlot.nextOf p) (q :: l1b) (List.cons_ne_nil q l1b)
              have hneg : predSlot (GuardSlot.nextOf p) (q :: l1b) ≠ GuardSlot.nextOf p := by
                rw [hreq]
                intro hc
                have hrp : r = p := by injection hc
                refine hnp ?_
                rw [← hrp]
                exact List.mem_append_left _ hrmem
              rw [if_neg hneg]
              rfl
        rw [hpn]
        exact hih

/-- Removing a member guard from a well-formed host guard list by `remGuard`
succeeds, yields the list without it, and fully unlinks the guard. -/
theorem remGuard_hostGuards {s : EngineState} {d : DDataId} {g : GuardId}
    {l1 l2 : List GuardId}
    (hrep : hostGuards s d (l1 ++ g :: l2)) (hnd : (l1 ++ g :: l2).Nodup) :
    ∃ s2, QmlGuard.remGuard s g = some s2 ∧ hostGuards s2 d (l1 ++ l2) ∧
      (s2.guardHeap g).next = none ∧ (s2.guardHeap g).prev = none := by
  have hmid := guardSeg_middle l1 (GuardSlot.headOf d) ((s.ddataHeap d).guards) hrep
  obtain ⟨s2, hrem⟩ := remGuard_some hmid.1
  obtain ⟨_, _, hc3, hc4, hc5, _⟩ := remGuard_char hmid.1 hrem
  have hext : ∀ x ∈ l1 ++ g :: l2, GuardSlot.headOf d ≠ GuardSlot.nextOf x := by
    intro x hx hcc
    simp at hcc
  have hseg2 := guardSeg_remove hrem l1 _ _ hrep hnd hext
  refine ⟨s2, hrem, ?_, hc3, hc4⟩
  unfold hostGuards
  have hguards : (s2.ddataHeap d).guards =
      removedHead ((s.guardHeap g).next) ((s.ddataHeap d).guards) l1 := by
    rw [hc5 d]
    cases l1 with
    | nil => simp [predSlot, removedHead]
    | cons q l1b =>
        obtain ⟨r, hrmem, hreq⟩ :=
          predSlot_mem (GuardSlot.headOf d) (q :: l1b) (List.cons_ne_nil q l1b)
        rw [hreq, if_neg (by simp)]
        rfl
  rw [hguards]
  exact hseg2

/-- Linking a fresh guard into a host's existing well-formed guard list by
`addGuard` succeeds and yields the list with the guard prepended. -/
theorem addGuard_hostGuards {s : EngineState} {d : DDataId} {g : GuardId} {obj : HostId}
    {l : List GuardId}
    (hrep : hostGuards s d l) (hnd : (g :: l).Nodup)
    (ho : (s.guardHeap g).o = some obj) (hdd : s.declarativeData obj = some d) :
    ∃ s2, QmlGuard.addGuard s g = some s2 ∧ hostGuards s2 d (g :: l) := by
  have hget : QmlDeclarativeData.get s obj true = (some d, s) := by
    simp [QmlDeclarativeData.get, hdd]
  cases l with
  | nil =>
      have hguards : (s.ddataHeap d).guards = none := hrep
      refine ⟨((s.setGuardNext g none).setGuards d (some g)).setGuardPrev g
          (some (GuardSlot.headOf d)), ?_, ?_⟩
      · simp [QmlGuard.addGuard, ho, hget, hguards]
      · refine ⟨?_, ?_, ?_⟩ <;> simp [guardSeg]
  | cons n rest =>
      obtain ⟨hg, hnprev, hseg⟩ := hrep
      have hgnl : g ∉ n :: rest := (List.nodup_cons.mp hnd).1
      have hgn : g ≠ n := by
        intro hc
        exact hgnl (by rw [hc]; exact List.mem_cons_self n rest)
      have hnrest : n ∉ rest := (List.nodup_cons.mp ((List.nodup_cons.mp hnd).2)).1
      refine ⟨(((s.setGuardNext g (some n)).setGuardPrev n
          (some (GuardSlot.nextOf g))).setGuards d (some g)).setGuardPrev g
          (some (GuardSlot.headOf d)), ?_, ?_⟩
      · simp [QmlGuard.addGuard, ho, hget, hg]
      · have hgnext : (((((s.setGuardNext g (some n)).setGuardPrev n
            (some (GuardSlot.nextOf g))).setGuards d (some g)).setGuardPrev g
            (some (GuardSlot.headOf d))).guardHeap g).next = some n := by
          simp [hgn]
        refine ⟨?_, ?_, ?_⟩
        · simp
        · simp
        · rw [hgnext]
          have hnnext : (((((s.setGuardNext g (some n)).setGuardPrev n
              (some (GuardSlot.nextOf g))).setGuards d (some g)).setGuardPrev g
              (some (GuardSlot.headOf d))).guardHeap n).next = (s.guardHeap n).next := by
            simp [Ne.symm hgn, hgn]
          refine ⟨rfl, ?_, ?_⟩
          · simp [Ne.symm hgn]
          · rw [hnnext]
            refine guardSeg_congr ?_ hseg
            intro x hx
            have hxg : x ≠ g := by
              intro hc
              exact hgnl (by rw [← hc]; exact List.mem_cons_of_mem n hx)
            have hxn : x ≠ n := by
              intro hc
              exact hnrest (by rw [← hc]; exact hx)
            constructor <;> simp [hxg, hxn]

/-- Claim C2 counterexample state: host 0 carries declarative data (record 0)
whose guard list holds exactly guard 0. -/
def stateC2 : EngineState :=
  { declarativeData := fun h => if h = 0 then some 0 else none
    ddataHeap := fun _ => { QmlDeclarativeData.init none with guards := some 0 }
    guardHeap := fun _ => { o := some 0, next := none, prev := some (GuardSlot.headOf 0) }
    nextDData := 1
    contextObjects := fun _ => none }

/-- Claim C2 counterexample: the first `remGuard` on a linked guard succeeds,
but calling `remGuard` again on the now-unregistered guard (`next` and `prev`
both null) executes `*prev = next` through the null `prev` back-reference —
an invalid dereference (embedded as `none`), not a safe no-op. -/
theorem remGuard_double_call_counterexample :
    (QmlGuard.remGuard stateC2 0).isSome = true ∧
    (QmlGuard.remGuard stateC2 0).bind (fun s1 => QmlGuard.remGuard s1 0) = none :=
  ⟨rfl, rfl⟩

/-- Claim C2 (amended): `remGuard` removes the guard from whatever guard list
it is currently in, in O(1), through its stored back-reference, nulling its
links — but it requires the guard to be currently linked: on a guard whose
`prev` back-reference is already null (as after a prior `remGuard`) the store
`*prev = next` dereferences a null pointer, so the safe no-op behaviour for
already-unregistered guards must live in the callers, which test `prev`
before calling. -/
theorem remGuard_unlinks_requires_linked (s : EngineState) (g : GuardId) :
    ((s.guardHeap g).prev = none → QmlGuard.remGuard s g = none) ∧
    (∀ d l1 l2, hostGuards s d (l1 ++ g :: l2) → (l1 ++ g :: l2).Nodup →
      ∃ s2, QmlGuard.remGuard s g = some s2 ∧ hostGuards s2 d (l1 ++ l2) ∧
        (s2.guardHeap g).next = none ∧ (s2.guardHeap g).prev = none) := by
  constructor
  · intro h
    unfold QmlGuard.remGuard
    cases hnext : (s.guardHeap g).next <;> simp [h, hnext]
  · intro d l1 l2 hrep hnd
    exact remGuard_hostGuards hrep hnd

theorem remGuard_unlinks_requires_linked_witness :
    QmlGuard.remGuard emptyState 4 = none ∧
    ∃ s2, QmlGuard.remGuard stateC2 0 = some s2 ∧ hostGuards s2 0 ([] ++ []) ∧
      (s2.guardHeap 0).next = none ∧ (s2.guardHeap 0).prev = none :=
  ⟨(remGuard_unlinks_requires_linked emptyState 4).1 rfl,
   (remGuard_unlinks_requires_linked stateC2 0).2 0 [] [] ⟨rfl, rfl, rfl⟩ (by decide)⟩

/-- Claim C8: both guard-list mutators preserve the back-pointer invariant
(`hostGuards`): every guard in the list has its `prev` aiming exactly at the
cell that points at it, and its successor's `prev` aiming at its own `next`
cell.  `addGuard` of a fresh guard turns the list `l` into `g :: l`;
`remGuard` of a member turns `l1 ++ g :: l2` into `l1 ++ l2`; in both cases
every remaining guard again satisfies the invariant. -/
theorem guard_list_backptr_invariant (s : EngineState) (d : DDataId) :
    (∀ (g : GuardId) (obj : HostId) (l : List GuardId),
        hostGuards s d l → (g :: l).Nodup →
        (s.guardHeap g).o = some obj → s.declarativeData obj = some d →
        ∃ s2, QmlGuard.addGuard s g = some s2 ∧ hostGuards s2 d (g :: l)) ∧
    (∀ (g : GuardId) (l1 l2 : List GuardId),
        hostGuards s d (l1 ++ g :: l2) → (l1 ++ g :: l2).Nodup →
        ∃ s2, QmlGuard.remGuard s g = some s2 ∧ hostGuards s2 d (l1 ++ l2)) := by
  constructor
  · intro g obj l hrep hnd ho hdd
    exact addGuard_hostGuards hrep hnd ho hdd
  · intro g l1 l2 hrep hnd
    obtain ⟨s2, h1, h2, _, _⟩ := remGuard_hostGuards hrep hnd
    exact ⟨s2, h1, h2⟩

/-- Claim C8 witness state: host 0 has record 0 whose guard list is `[5]`;
guard 8 watches host 0 but is not yet linked. -/
def stateC8 : EngineState :=
  { declarativeData := fun h => if h = 0 then some 0 else none
    ddataHeap := fun _ => { QmlDeclarativeData.init none with guards := some 5 }
    guardHeap := fun g =>
      if g = 5 then { o := some 0, next := none, prev := some (GuardSlot.headOf 0) }
      else { o := some 0, next := none, prev := none }
    nextDData := 1
    contextObjects := fun _ => none }

theorem guard_list_backptr_invariant_witness :
    (∃ s2, QmlGuard.addGuard stateC8 8 = some s2 ∧ hostGuards s2 0 (8 :: [5])) ∧
    (∃ s2, QmlGuard.remGuard stateC8 5 = some s2 ∧ hostGuards s2 0 ([] ++ [])) :=
  ⟨(guard_list_backptr_invariant stateC8 0).1 8 0 [5] ⟨rfl, rfl, rfl⟩ (by decide) rfl rfl,
   (guard_list_backptr_invariant stateC8 0).2 5 [] [] ⟨rfl, rfl, rfl⟩ (by decide)⟩

/-- Claim C5: `addGuard` links the guard at the head of the watched host's
guard list, creating the declarative data on demand when the host has none:
afterwards the list head is the guard, the guard's `next` is the previous
head, the guard's `prev` aims at the head cell, and the previous head (when
one exists and differs from the guard) has its `prev` aiming at the guard's
`next` cell. -/
theorem addGuard_links_at_head (s : EngineState) (g : GuardId) (obj : HostId)
    (ho : (s.guardHeap g).o = some obj) :
    ∃ d s2, (QmlDeclarativeData.get s obj true).1 = some d ∧
      QmlGuard.addGuard s g = some s2 ∧
      (s2.ddataHeap d).guards = some g ∧
      (s2.guardHeap g).prev = some (GuardSlot.headOf d) ∧
      (s2.guardHeap g).next = ((QmlDeclarativeData.get s obj true).2.ddataHeap d).guards ∧
      (∀ n, ((QmlDeclarativeData.get s obj true).2.ddataHeap d).guards = some n → n ≠ g →
        (s2.guardHeap n).prev = some (GuardSlot.nextOf g)) := by
  cases hdd : s.declarativeData obj with
  | some d =>
      have hget : QmlDeclarativeData.get s obj true = (some d, s) := by
        simp [QmlDeclarativeData.get, hdd]
      cases hold : (s.ddataHeap d).guards with
      | none =>
          refine ⟨d, ((s.setGuardNext g none).setGuards d (some g)).setGuardPrev g
              (some (GuardSlot.headOf d)), ?_, ?_, ?_, ?_, ?_, ?_⟩
          · rw [hget]
          · simp [QmlGuard.addGuard, ho, hget, hold]
          · simp
          · simp
          · simp [hget, hold]
          · intro n hn
            rw [hget] at hn
            rw [hold] at hn
            exact absurd hn (by simp)
      | some n0 =>
          refine ⟨d, (((s.setGuardNext g (some n0)).setGuardPrev n0
              (some (GuardSlot.nextOf g))).setGuards d (some g)).setGuardPrev g
              (some (GuardSlot.headOf d)), ?_, ?_, ?_, ?_, ?_, ?_⟩
          · rw [hget]
          · simp [QmlGuard.addGuard, ho, hget, hold]
          · simp
          · simp
          · rw [hget]
            rw [hold]
            by_cases hgn : g = n0
            · subst hgn
              simp
            · simp [hgn, Ne.symm hgn]
          · intro n hn hng
            rw [hget] at hn
            rw [hold] at hn
            have hn0n : n0 = n := by injection hn
            subst hn0n
            simp [hng]
  | none =>
      have hget : QmlDeclarativeData.get s obj true =
          (some s.nextDData,
            { s with
              declarativeData := fun h => if h = obj then some s.nextDData
                                          else s.declarativeData h
              ddataHeap := fun x => if x = s.nextDData then QmlDeclarativeData.init none
                                    else s.ddataHeap x
              nextDData := s.nextDData + 1 }) := by
        simp [QmlDeclarativeData.get, hdd]
      refine ⟨s.nextDData,
        (({ s with
            declarativeData := fun h => if h = obj then some s.nextDData
                                        else s.declarativeData h
            ddataHeap := fun x => if x = s.nextDData then QmlDeclarativeData.init none
                                  else s.ddataHeap x
            nextDData := s.nextDData + 1 : EngineState }.setGuardNext g none).setGuards
          s.nextDData (some g)).setGuardPrev g (some (GuardSlot.headOf s.nextDData)),
        ?_, ?_, ?_, ?_, ?_, ?_⟩
      · rw [hget]
      · simp [QmlGuard.addGuard, ho, hget, QmlDeclarativeData.init]
      · simp
      · simp
      · rw [hget]
        simp [QmlDeclarativeData.init]
      · intro n hn
        rw [hget] at hn
        simp [QmlDeclarativeData.init] at hn

theorem addGuard_links_at_head_witness :
    ∃ d s2, (QmlDeclarativeData.get stateC8 0 true).1 = some d ∧
      QmlGuard.addGuard stateC8 8 = some s2 ∧
      (s2.ddataHeap d).guards = some 8 ∧
      (s2.guardHeap 8).prev = some (GuardSlot.headOf d) ∧
      (s2.guardHeap 8).next = ((QmlDeclarativeData.get stateC8 0 true).2.ddataHeap d).guards ∧
      (∀ n, ((QmlDeclarativeData.get stateC8 0 true).2.ddataHeap d).guards = some n → n ≠ 8 →
        (s2.guardHeap n).prev = some (GuardSlot.nextOf 8)) :=
  addGuard_links_at_head stateC8 8 0 rfl

/-- The teardown walk only ever writes `none` into `o` fields, so a guard
already invalidated stays invalidated. -/
theorem clearGuardsLoop_o_mono :
    ∀ (fuel : Nat) (s : EngineState) (head : Option GuardId) (g : GuardId),
      (s.guardHeap g).o = none →
      ((clearGuardsLoop s fuel head).guardHeap g).o = none := by
  intro fuel
  induction fuel with
  | zero => intro s head g h; exact h
  | succ fuel ih =>
      intro s head g h
      cases head with
      | none => exact h
      | some a =>
          simp only [clearGuardsLoop]
          apply ih
          simp only [guardHeap_setGuardPrev, guardHeap_setGuardNext, guardHeap_setGuardO]
          split_ifs <;> simp_all

/-- With enough fuel, the teardown walk invalidates the target of every guard
of a well-formed chain. -/
theorem clearGuardsLoop_clears :
    ∀ (l : List GuardId) (s : EngineState) (slot : GuardSlot) (head : Option GuardId)
      (fuel : Nat),
      guardSeg s slot head l → l.Nodup → l.length ≤ fuel →
      ∀ g ∈ l, ((clearGuardsLoop s fuel head).guardHeap g).o = none := by
  intro l
  induction l with
  | nil =>
      intro s slot head fuel hseg hnd hlen g hg
      exact absurd hg (List.not_mem_nil g)
  | cons a rest ih =>
      intro s slot head fuel hseg hnd hlen g hg
      obtain ⟨h1, h2, h3⟩ := hseg
      cases fuel with
      | zero => exact absurd hlen (by simp)
      | succ fuel =>
          rw [h1]
          simp only [clearGuardsLoop]
          have hanr : a ∉ rest := (List.nodup_cons.mp hnd).1
          rcases List.mem_cons.mp hg with hga | hgrest
          · subst hga
            apply clearGuardsLoop_o_mono
            simp
          · refine ih (((s.setGuardO a none).setGuardNext a none).setGuardPrev a none)
              (GuardSlot.nextOf a) ((s.guardHeap a).next) fuel ?_
              ((List.nodup_cons.mp hnd).2) (Nat.le_of_succ_le_succ (by simpa using hlen))
              g hgrest
          -- the cleared node `a` is not in `rest`, so the tail chain is intact
            refine guardSeg_congr ?_ h3
            intro x hx
            have hxa : x ≠ a := by
              intro hc
              exact hanr (by rw [← hc]; exact hx)
            constructor <;> simp [hxa]

/-- Claim C1 (spec-modelled teardown): after `onHostDestroyed(H)` — the
`destroyed` hook — every guard that was registered in H's guard list has an
absent target, however many guards the list held; no guard's target read can
yield the destroyed host. -/
theorem destroyed_invalidates_all_guards (s : EngineState) (H : HostId) (d : DDataId)
    (l : List GuardId) (fuel : Nat)
    (hdd : s.declarativeData H = some d) (hrep : hostGuards s d l) (hnd : l.Nodup)
    (hfuel : l.length ≤ fuel) (g : GuardId) (hg : g ∈ l) :
    ((QmlDeclarativeData.destroyed s H fuel).guardHeap g).o = none := by
  unfold QmlDeclarativeData.destroyed
  rw [hdd]
  exact clearGuardsLoop_clears l s (GuardSlot.headOf d) ((s.ddataHeap d).guards) fuel
    hrep hnd hfuel g hg

/-- Claim C1 witness state: host 0 has record 0 whose guard list is `[5, 6]`
with correct back-pointers. -/
def stateC1 : EngineState :=
  { declarativeData := fun h => if h = 0 then some 0 else none
    ddataHeap := fun _ => { QmlDeclarativeData.init none with guards := some 5 }
    guardHeap := fun g =>
      if g = 5 then { o := some 0, next := some 6, prev := some (GuardSlot.headOf 0) }
      else if g = 6 then { o := some 0, next := none, prev := some (GuardSlot.nextOf 5) }
      else { o := none, next := none, prev := none }
    nextDData := 1
    contextObjects := fun _ => none }

theorem destroyed_invalidates_all_guards_witness :
    ((QmlDeclarativeData.destroyed stateC1 0 2).guardHeap 5).o = none ∧
    ((QmlDeclarativeData.destroyed stateC1 0 2).guardHeap 6).o = none :=
  ⟨destroyed_invalidates_all_guards stateC1 0 0 [5, 6] 2 rfl ⟨rfl, rfl, rfl, rfl, rfl⟩
      (by decide) (by decide) 5 (by decide),
   destroyed_invalidates_all_guards stateC1 0 0 [5, 6] 2 rfl ⟨rfl, rfl, rfl, rfl, rfl⟩
      (by decide) (by decide) 6 (by decide)⟩

/-- A `QMetaEnum`: an enumeration's key/value table.  Identifiers are lists
of characters.  `keyToValue` returns the value of the named enumerator and
`-1` when the key is absent (the Qt convention the caller tests against). -/
structure QMetaEnum where
  keys : List (List Char × Int)
deriving DecidableEq

def QMetaEnum.keyToValue (e : QMetaEnum) (key : List Char) : Int :=
  match e.keys.find? (fun p => p.1 == key) with
  | some p => p.2
  | none => -1

/-- A `QMetaObject`, reduced to what `queryProperty` reads: the enumerations
reachable through `enumerator(ii)` for `0 ≤ ii < enumeratorCount()`, in index
order — inherited (base-class) enumerations at the lower indices, the most
derived class's own enumerations at the highest. -/
structure QMetaObject where
  enumerators : List QMetaEnum
deriving DecidableEq

/-- A `QmlType`, reduced to what `queryProperty` reads: `index()` (the
attached-properties id) and `baseMetaObject()`. -/
structure QmlType where
  index : Nat
  baseMetaObject : QMetaObject
deriving DecidableEq

/-- `QmlTypeNameScriptClass::TypeNameMode` (declared in
qmltypenamescriptclass_p.h; both values are used by queryProperty line 117). -/
inductive TypeNameMode where
  | IncludeEnums
  | ExcludeEnums
deriving DecidableEq

/-- One entry of a `QmlTypeNameCache` (the `data(name)` result): queryProperty
reads only its `type` field (qmltypenamescriptclass.cpp line 103). -/
structure QmlTypeNameCacheData where
  type : Option QmlType

/-- `TypeNameData` (qmltypenamescriptclass.cpp lines 49-62): the resolution
subject — a host object in scope, a concrete type or a namespace, and the
resolver mode.  The namespace is its `data` lookup function. -/
structure TypeNameData where
  object : Option HostId
  type : Option QmlType
  typeNamespace : Option (List Char → Option QmlTypeNameCacheData)
  mode : TypeNameMode

/-- The meaning `queryProperty` assigns to an identifier: which of the
members `type` / `object` / `enumValue` it sets before returning
`HandlesReadAccess`, or `0` (unresolved). -/
inductive QueryOutcome where
  | unresolved
  | typeReference (t : QmlType)
  | enumValue (v : Int)
  | attachedDelegate (companion : HostId)
deriving DecidableEq

/-- The enumerator scan of qmltypenamescriptclass.cpp lines 120-128: the loop
`for (ii = enumeratorCount()-1; ii >= 0; --ii)` checks the enumerations from
the highest index (most derived) down, returning the first `keyToValue`
result that is not `-1`.  The recursion checks the tail (higher indices)
before the head, which is the same order. -/
def findEnumRev (k : List Char) : List QMetaEnum → Option Int
  | [] => none
  | e :: rest =>
      match findEnumRev k rest with
      | some v => some v
      | none =>
          if e.keyToValue k ≠ -1 then some (e.keyToValue k) else none

/-- The companion lookup in a record's `attachedProperties` hash. -/
def attachedLookup (dd : QmlDeclarativeData) (id : Nat) : Option HostId :=
  match dd.attachedProperties with
  | none => none
  | some m => m.lookup id

/-- The companion cached for `id` on host `obj`, absent when the host has no
declarative data or no hash. -/
def cacheLookup (s : EngineState) (obj : HostId) (id : Nat) : Option HostId :=
  match s.declarativeData obj with
  | none => none
  | some d => attachedLookup (s.ddataHeap d) id

/-- Modelled from the spec: the body of `qmlAttachedPropertiesObjectById` is
not in this source subset (only its call site at qmltypenamescriptclass.cpp
line 133 and the `attachedProperties` cache field are).  Spec sections 4.5
step 3, 6 and 7(c): ask the host's side table (created if absent) for the
companion keyed by the type id; if none is cached, invoke the external
companion factory; a companion the factory returns is cached (memoised,
invoked at most once per host and id); a declining factory yields absent and
nothing is cached. -/
def qmlAttachedPropertiesObjectById (s : EngineState)
    (factory : Nat → HostId → Option HostId) (id : Nat) (object : HostId) :
    Option HostId × EngineState :=
  match QmlDeclarativeData.get s object true with
  | (none, s1) => (none, s1)
  | (some d, s1) =>
      match attachedLookup (s1.ddataHeap d) id with
      | some rv => (some rv, s1)
      | none =>
          match factory id object with
          | some rv =>
              (some rv,
                s1.setAttached d (some ((id, rv) ::
                  (match (s1.ddataHeap d).attachedProperties with
                   | none => []
                   | some m => m))))
          | none => (none, s1)

/-- `QmlTypeNameScriptClass::queryProperty` (qmltypenamescriptclass.cpp lines
88-140).  Namespace subject: look the identifier up in the namespace; a hit
whose entry carries a type is a type reference, anything else is unresolved.
Concrete-type subject (the `Q_ASSERT(data->type)` failing — no type — and the
`strName.at(0)` read on an empty identifier are embedded as `none`): an
identifier with an uppercase first character is resolved as an enumerator of
the type's meta-object, most derived first, only in `IncludeEnums` mode;
otherwise, with a host object in scope, as an attached companion via
`qmlAttachedPropertiesObjectById`, whose null result means unresolved.
`factory` is the external attached-companion factory the spec-modelled
`qmlAttachedPropertiesObjectById` consults. -/
def QmlTypeNameScriptClass.queryProperty (s : EngineState)
    (factory : Nat → HostId → Option HostId)
    (data : TypeNameData) (name : List Char) :
    Option (QueryOutcome × EngineState) :=
  match data.typeNamespace with
  | some ns =>
      match ns name with
      | some dent =>
          match dent.type with
          | some t => some (QueryOutcome.typeReference t, s)
          | none => some (QueryOutcome.unresolved, s)
      | none => some (QueryOutcome.unresolved, s)
  | none =>
      match data.type with
      | none => none
      | some t =>
          match name with
          | [] => none
          | c :: _ =>
              if c.isUpper then
                if data.mode = TypeNameMode.IncludeEnums then
                  match findEnumRev name t.baseMetaObject.enumerators with
                  | some v => some (QueryOutcome.enumValue v, s)
                  | none => some (QueryOutcome.unresolved, s)
                else some (QueryOutcome.unresolved, s)
              else
                match data.object with
                | some obj =>
                    match qmlAttachedPropertiesObjectById s factory t.index obj with
                    | (some companion, s1) =>
                        some (QueryOutcome.attachedDelegate companion, s1)
                    | (none, s1) => some (QueryOutcome.unresolved, s1)
                | none => some (QueryOutcome.unresolved, s)

/-- Front-to-back first-match scan over a list of enumerations: the reference
formulation of the spec's policy, applied to the reversed (most-derived
first) enumeration list. -/
def firstMatch (k : List Char) : List QMetaEnum → Option Int
  | [] => none
  | e :: rest =>
      if e.keyToValue k ≠ -1 then some (e.keyToValue k) else firstMatch k rest

theorem firstMatch_append (k : List Char) (l1 l2 : List QMetaEnum) :
    firstMatch k (l1 ++ l2) =
      (match firstMatch k l1 with
       | some v => some v
       | none => firstMatch k l2) := by
  induction l1 with
  | nil => rfl
  | cons e rest ih =>
      simp only [List.cons_append, firstMatch, ih]
      by_cases h : e.keyToValue k ≠ -1 <;> simp [h, ih]

/-- The source's descending-index loop equals a first-match scan of the
reversed enumeration list. -/
theorem findEnumRev_eq_firstMatch_reverse (k : List Char) :
    ∀ es : List QMetaEnum, findEnumRev k es = firstMatch k es.reverse := by
  intro es
  induction es with
  | nil => rfl
  | cons e rest ih =>
      rw [List.reverse_cons, firstMatch_append]
      simp only [findEnumRev, ih]
      rfl

/-- Claim C6: for a concrete-type subject in `IncludeEnums` mode and an
identifier whose first character is uppercase, `queryProperty` performs an
enumerator lookup that scans the type's enumerations most-derived first
(reverse declaration order) and returns the value of the first enumeration
containing the identifier; so an enumerator redeclared on a more derived
class shadows the base declaration. -/
theorem queryProperty_enum_most_derived (s : EngineState)
    (factory : Nat → HostId → Option HostId) (data : TypeNameData)
    (name : List Char) (t : QmlType) (c : Char) (cs : List Char)
    (hns : data.typeNamespace = none) (ht : data.type = some t)
    (hname : name = c :: cs) (hup : c.isUpper = true)
    (hmode : data.mode = TypeNameMode.IncludeEnums) :
    QmlTypeNameScriptClass.queryProperty s factory data name =
      some ((match firstMatch name t.baseMetaObject.enumerators.reverse with
             | some v => QueryOutcome.enumValue v
             | none => QueryOutcome.unresolved), s) := by
  subst hname
  unfold QmlTypeNameScriptClass.queryProperty
  rw [hns, ht]
  simp only [hup, if_true, hmode, if_pos, findEnumRev_eq_firstMatch_reverse]
  cases firstMatch (c :: cs) t.baseMetaObject.enumerators.reverse <;> rfl

/-- Claim C6 witness data: the enumerator `Foo` has value 7 on the base class
and is redeclared with value 9 on the derived class given as subject. -/
def tFoo : QmlType :=
  { index := 0
    baseMetaObject :=
      { enumerators := [{ keys := [("Foo".toList, 7)] }, { keys := [("Foo".toList, 9)] }] } }

def dataFoo : TypeNameData :=
  { object := none, type := some tFoo, typeNamespace := none
    mode := TypeNameMode.IncludeEnums }

theorem queryProperty_enum_most_derived_witness :
    QmlTypeNameScriptClass.queryProperty emptyState (fun _ _ => none) dataFoo
        ("Foo".toList) = some (QueryOutcome.enumValue 9, emptyState) := by
  have h := queryProperty_enum_most_derived emptyState (fun _ _ => none) dataFoo
    ("Foo".toList) tFoo 'F' ("oo".toList) rfl rfl rfl (by decide) rfl
  rw [h]
  rfl

/-- Claim C10: enumerator resolution is gated on the resolver mode — for an
uppercase identifier against a concrete-type subject, any mode other than
`IncludeEnums` yields unresolved (with no state change) even when a matching
enumerator exists, and the attached-companion path is never taken for an
uppercase identifier in any mode. -/
theorem queryProperty_mode_gates_enums (s : EngineState)
    (factory : Nat → HostId → Option HostId) (data : TypeNameData)
    (name : List Char) (t : QmlType) (c : Char) (cs : List Char)
    (hns : data.typeNamespace = none) (ht : data.type = some t)
    (hname : name = c :: cs) (hup : c.isUpper = true) :
    (data.mode ≠ TypeNameMode.IncludeEnums →
      QmlTypeNameScriptClass.queryProperty s factory data name =
        some (QueryOutcome.unresolved, s)) ∧
    (∀ r s2, QmlTypeNameScriptClass.queryProperty s factory data name = some (r, s2) →
      ∀ comp, r ≠ QueryOutcome.attachedDelegate comp) := by
  subst hname
  unfold QmlTypeNameScriptClass.queryProperty
  rw [hns, ht]
  simp only [hup, if_true]
  constructor
  · intro hmode
    rw [if_neg hmode]
  · intro r s2 hq comp
    by_cases hmode : data.mode = TypeNameMode.IncludeEnums
    · rw [if_pos hmode] at hq
      cases hfind : findEnumRev (c :: cs) t.baseMetaObject.enumerators with
      | some v =>
          rw [hfind] at hq
          have hr : QueryOutcome.enumValue v = r := by
            have := Option.some.injEq .. ▸ hq
            exact (Prod.mk.injEq .. ▸ this).1
          rw [← hr]
          simp
      | none =>
          rw [hfind] at hq
          have hr : QueryOutcome.unresolved = r := by
            have := Option.some.injEq .. ▸ hq
            exact (Prod.mk.injEq .. ▸ this).1
          rw [← hr]
          simp
    · rw [if_neg hmode] at hq
      have hr : QueryOutcome.unresolved = r := by
        have := Option.some.injEq .. ▸ hq
        exact (Prod.mk.injEq .. ▸ this).1
      rw [← hr]
      simp

theorem queryProperty_mode_gates_enums_witness :
    QmlTypeNameScriptClass.queryProperty emptyState (fun _ _ => none)
        { dataFoo with mode := TypeNameMode.ExcludeEnums } ("Foo".toList) =
      some (QueryOutcome.unresolved, emptyState) :=
  (queryProperty_mode_gates_enums emptyState (fun _ _ => none)
    { dataFoo with mode := TypeNameMode.ExcludeEnums } ("Foo".toList) tFoo 'F'
    ("oo".toList) rfl rfl rfl (by decide)).1 (by decide)

/-- Claim C9: with a concrete-type subject (not a namespace), `queryProperty`
unconditionally reads the identifier's first character (`strName.at(0)`), so
the resolution is defined exactly when the identifier is non-empty: under
that precondition the out-of-range character access is unreachable, and on
an empty identifier the access is out of range (embedded as `none`). -/
theorem queryProperty_defined_iff_nonempty (s : EngineState)
    (factory : Nat → HostId → Option HostId) (data : TypeNameData)
    (name : List Char) (t : QmlType)
    (hns : data.typeNamespace = none) (ht : data.type = some t) :
    (QmlTypeNameScriptClass.queryProperty s factory data name).isSome = true ↔
      name ≠ [] := by
  unfold QmlTypeNameScriptClass.queryProperty
  rw [hns, ht]
  cases name with
  | nil => simp
  | cons c cs =>
      simp only [List.cons_ne_nil, iff_true]
      by_cases hup : c.isUpper
      · simp only [hup, if_true]
        by_cases hmode : data.mode = TypeNameMode.IncludeEnums
        · rw [if_pos hmode]
          cases findEnumRev (c :: cs) t.baseMetaObject.enumerators <;> simp
        · rw [if_neg hmode]
          simp
      · simp only [hup, if_false]
        cases data.object with
        | none => simp
        | some obj =>
            simp only
            rcases qmlAttachedPropertiesObjectById s factory t.index obj with ⟨ro, s1⟩
            cases ro <;> simp

theorem queryProperty_defined_iff_nonempty_witness :
    ((QmlTypeNameScriptClass.queryProperty emptyState (fun _ _ => none) dataFoo
        ("Foo".toList)).isSome = true) ∧
    ((QmlTypeNameScriptClass.queryProperty emptyState (fun _ _ => none) dataFoo
        []).isSome = false) := by
  constructor
  · exact (queryProperty_defined_iff_nonempty emptyState (fun _ _ => none) dataFoo
      ("Foo".toList) tFoo rfl rfl).mpr (by decide)
  · have h := (queryProperty_defined_iff_nonempty emptyState (fun _ _ => none) dataFoo
      [] tFoo rfl rfl)
    simp at h
    simp [h]

/-- After a declined companion creation nothing is cached, so a later call
with a factory that succeeds returns its companion. -/
theorem qmlAttached_decline_then_retry (s : EngineState)
    (factory factory2 : Nat → HostId → Option HostId) (id : Nat) (obj : HostId)
    (hnocache : cacheLookup s obj id = none) (hdecl : factory id obj = none) :
    ∃ s2, qmlAttachedPropertiesObjectById s factory id obj = (none, s2) ∧
      cacheLookup s2 obj id = none ∧
      (∀ comp, factory2 id obj = some comp →
        ∃ s3, qmlAttachedPropertiesObjectById s2 factory2 id obj = (some comp, s3)) := by
  cases hdd : s.declarativeData obj with
  | some d =>
      have hget : QmlDeclarativeData.get s obj true = (some d, s) := by
        simp [QmlDeclarativeData.get, hdd]
      have hal : attachedLookup (s.ddataHeap d) id = none := by
        unfold cacheLookup at hnocache
        rw [hdd] at hnocache
        exact hnocache
      refine ⟨s, ?_, hnocache, ?_⟩
      · simp [qmlAttachedPropertiesObjectById, hget, hal, hdecl]
      · intro comp hcomp
        have h1 : (qmlAttachedPropertiesObjectById s factory2 id obj).1 = some comp := by
          simp [qmlAttachedPropertiesObjectById, hget, hal, hcomp]
        exact ⟨(qmlAttachedPropertiesObjectById s factory2 id obj).2,
          Prod.ext h1 rfl⟩
  | none =>
      have hget : QmlDeclarativeData.get s obj true =
          (some s.nextDData,
            { s with
              declarativeData := fun h => if h = obj then some s.nextDData
                                          else s.declarativeData h
              ddataHeap := fun x => if x = s.nextDData then QmlDeclarativeData.init none
                                    else s.ddataHeap x
              nextDData := s.nextDData + 1 }) := by
        simp [QmlDeclarativeData.get, hdd]
      refine ⟨{ s with
              declarativeData := fun h => if h = obj then some s.nextDData
                                          else s.declarativeData h
              ddataHeap := fun x => if x = s.nextDData then QmlDeclarativeData.init none
                                    else s.ddataHeap x
              nextDData := s.nextDData + 1 }, ?_, ?_, ?_⟩
      · simp [qmlAttachedPropertiesObjectById, hget, attachedLookup,
          QmlDeclarativeData.init, hdecl]
      · simp [cacheLookup, attachedLookup, QmlDeclarativeData.init]
      · intro comp hcomp
        have hget2 : QmlDeclarativeData.get
            { s with
              declarativeData := fun h => if h = obj then some s.nextDData
                                          else s.declarativeData h
              ddataHeap := fun x => if x = s.nextDData then QmlDeclarativeData.init none
                                    else s.ddataHeap x
              nextDData := s.nextDData + 1 } obj true =
            (some s.nextDData,
              { s with
                declarativeData := fun h => if h = obj then some s.nextDData
                                            else s.declarativeData h
                ddataHeap := fun x => if x = s.nextDData then QmlDeclarativeData.init none
                                      else s.ddataHeap x
                nextDData := s.nextDData + 1 }) := by
          simp [QmlDeclarativeData.get]
        have h1 : (qmlAttachedPropertiesObjectById
            { s with
              declarativeData := fun h => if h = obj then some s.nextDData
                                          else s.declarativeData h
              ddataHeap := fun x => if x = s.nextDData then QmlDeclarativeData.init none
                                    else s.ddataHeap x
              nextDData := s.nextDData + 1 } factory2 id obj).1 = some comp := by
          unfold qmlAttachedPropertiesObjectById
          rw [hget2]
          simp [attachedLookup, QmlDeclarativeData.init, hcomp]
        exact ⟨_, Prod.ext h1 rfl⟩

/-- Claim C7 (spec-modelled companion factory): for a lowercase identifier
resolved against a concrete type with a host object in scope, when the
attached-companion factory declines the resolver returns unresolved and
caches no negative result, so a later resolution of the same identifier
against the same host re-invokes the factory and can succeed. -/
theorem queryProperty_factory_decline_retry (s : EngineState)
    (factory factory2 : Nat → HostId → Option HostId) (data : TypeNameData)
    (name : List Char) (t : QmlType) (obj : HostId) (c : Char) (cs : List Char)
    (hns : data.typeNamespace = none) (ht : data.type = some t)
    (hobj : data.object = some obj) (hname : name = c :: cs)
    (hlow : c.isUpper = false)
    (hnocache : cacheLookup s obj t.index = none)
    (hdecl : factory t.index obj = none) :
    ∃ s2, QmlTypeNameScriptClass.queryProperty s factory data name =
        some (QueryOutcome.unresolved, s2) ∧
      cacheLookup s2 obj t.index = none ∧
      (∀ comp, factory2 t.index obj = some comp →
        ∃ s3, QmlTypeNameScriptClass.queryProperty s2 factory2 data name =
          some (QueryOutcome.attachedDelegate comp, s3)) := by
  subst hname
  obtain ⟨s2, hq, hc, hretry⟩ :=
    qmlAttached_decline_then_retry s factory factory2 t.index obj hnocache hdecl
  refine ⟨s2, ?_, hc, ?_⟩
  · simp [QmlTypeNameScriptClass.queryProperty, hns, ht, hobj, hlow, hq]
  · intro comp hcomp
    obtain ⟨s3, hq3⟩ := hretry comp hcomp
    exact ⟨s3, by simp [QmlTypeNameScriptClass.queryProperty, hns, ht, hobj, hlow, hq3]⟩

/-- Claim C7 witness data: subject type `tFoo` with host 0 in scope. -/
def dataC7 : TypeNameData :=
  { object := some 0, type := some tFoo, typeNamespace := none
    mode := TypeNameMode.IncludeEnums }

theorem queryProperty_factory_decline_retry_witness :
    ∃ s2, QmlTypeNameScriptClass.queryProperty emptyState (fun _ _ => none) dataC7
        ("foo".toList) = some (QueryOutcome.unresolved, s2) ∧
      cacheLookup s2 0 tFoo.index = none ∧
      (∀ comp, (fun _ _ => (some 42 : Option HostId)) tFoo.index 0 = some comp →
        ∃ s3, QmlTypeNameScriptClass.queryProperty s2 (fun _ _ => some 42) dataC7
          ("foo".toList) = some (QueryOutcome.attachedDelegate comp, s3)) :=
  queryProperty_factory_decline_retry emptyState (fun _ _ => none) (fun _ _ => some 42)
    dataC7 ("foo".toList) tFoo 0 'f' ("oo".toList) rfl rfl rfl rfl (by decide) rfl rfl
